import Mathlib

/-!
Verification development for the `magazzino` inventory manager.

The Catalog Store (`src/inventory_manager.py`) is an SQLite-backed table of
products; we embed it as a pure state (`DB`) holding the rows plus the
AUTOINCREMENT counter, and each Python function becomes a pure function on
that state.  Python `ValueError`s become an explicit `StoreError`; fallible
operations return `Except`.  SQLite specifics are embedded as follows:
`ORDER BY <col> <dir>` is a stable sort of the table (in rowid order) by the
column, `LIKE` is the ASCII-case-insensitive `%`/`_` pattern matcher, the
`UNIQUE` constraint on `code` is exact (BINARY-collation) string equality,
and `AUTOINCREMENT` assigns `nextId` and bumps it, never reusing ids.
The curses front-end controller (`src/inventory_tui.py`) is embedded as an
explicit state machine (`TuiState`, `step`).
-/

/-- ASCII lower-casing of one character: this is the case folding used by
SQLite's `LIKE` (only `A`-`Z` fold). -/
def lowerAscii (c : Char) : Char :=
  if 'A' ≤ c ∧ c ≤ 'Z' then Char.ofNat (c.toNat + 32) else c

/-- `Char.isWhitespace` matches the whitespace Python's `str.strip()` removes
on the inputs this program sees (space, tab, CR, LF). -/
def stripChars (l : List Char) : List Char :=
  ((l.dropWhile Char.isWhitespace).reverse.dropWhile Char.isWhitespace).reverse

/-- Embedding of Python's `str.strip()`. -/
def strip (s : String) : String :=
  ⟨stripChars s.data⟩

/-- One row of the `products` table (`ProductRow` in `inventory_manager.py`):
`(id, code, name, description, category, quantity, price, location)`. -/
structure Product where
  id : Int
  code : String
  name : String
  description : String
  category : String
  quantity : Int
  price : Rat
  location : String
deriving DecidableEq

/-- The persistent state: the `products` table in rowid (insertion) order,
plus the AUTOINCREMENT counter SQLite keeps for fresh id assignment. -/
structure DB where
  nextId : Int
  rows : List Product
deriving DecidableEq

/-- The error kinds of §7 of the spec, raised as `ValueError` in the source. -/
inductive StoreError where
  | invalidQuantity
  | invalidPrice
  | duplicateCode
  | noFieldsProvided
  | invalidThreshold
  | invalidSortField
deriving DecidableEq

/-- `_validate_quantity` (`inventory_manager.py:51`): rejects `quantity < 0`. -/
def validate_quantity (q : Int) : Except StoreError Unit :=
  if q < 0 then .error .invalidQuantity else .ok ()

/-- `_validate_price` (`inventory_manager.py:56`): rejects `price < 0`. -/
def validate_price (p : Rat) : Except StoreError Unit :=
  if p < 0 then .error .invalidPrice else .ok ()

/-- `add_product` (`inventory_manager.py:61`): validates quantity then price,
then INSERTs; the UNIQUE constraint on `code` (exact string equality, checked
at write time) turns into `duplicateCode`.  `code` is stored as supplied;
the other four text fields are stored `.strip()`ped.  The row gets the
AUTOINCREMENT id `db.nextId`. -/
def add_product (code name description category : String) (quantity : Int)
    (price : Rat) (location : String) (db : DB) : Except StoreError DB :=
  match validate_quantity quantity with
  | .error e => .error e
  | .ok () =>
    match validate_price price with
    | .error e => .error e
    | .ok () =>
      if db.rows.any (fun r => r.code == code) then
        .error .duplicateCode
      else
        .ok ⟨db.nextId + 1,
             db.rows ++ [⟨db.nextId, code, strip name, strip description,
                          strip category, quantity, price, strip location⟩]⟩

/-- The keyword arguments of `update_product` (`inventory_manager.py:116`):
each mutable field is present (`some`) or absent (`none`). -/
structure Patch where
  name : Option String
  description : Option String
  category : Option String
  quantity : Option Int
  price : Option Rat
  location : Option String
deriving DecidableEq

/-- `updates == []` in `update_product`: every field absent. -/
def emptyPatch (p : Patch) : Bool :=
  p.name.isNone && p.description.isNone && p.category.isNone &&
  p.quantity.isNone && p.price.isNone && p.location.isNone

/-- The effect of the generated `UPDATE ... SET` on one row: present text
fields are stored `.strip()`ped, absent fields keep their value. -/
def applyPatch (p : Patch) (r : Product) : Product :=
  { r with
    name := match p.name with | some v => strip v | none => r.name
    description := match p.description with | some v => strip v | none => r.description
    category := match p.category with | some v => strip v | none => r.category
    quantity := match p.quantity with | some v => v | none => r.quantity
    price := match p.price with | some v => v | none => r.price
    location := match p.location with | some v => strip v | none => r.location }

/-- `update_product` (`inventory_manager.py:116`).  The source builds the
`SET` list field by field, calling `_validate_quantity` / `_validate_price`
for a present quantity/price *while building*, so those errors fire before
the `NoFieldsProvided` check; then it runs the UPDATE and returns
`rowcount > 0`, i.e. whether some row had the given id. -/
def update_product (pid : Int) (patch : Patch) (db : DB) :
    Except StoreError (Bool × DB) :=
  if patch.quantity.any (fun q => decide (q < 0)) then .error .invalidQuantity
  else if patch.price.any (fun p => decide (p < 0)) then .error .invalidPrice
  else if emptyPatch patch then .error .noFieldsProvided
  else
    .ok (db.rows.any (fun r => r.id == pid),
         ⟨db.nextId, db.rows.map (fun r => if r.id == pid then applyPatch patch r else r)⟩)

/-- `delete_product` (`inventory_manager.py:169`): hard delete, returns
`rowcount > 0`. -/
def delete_product (pid : Int) (db : DB) : Bool × DB :=
  (db.rows.any (fun r => r.id == pid),
   ⟨db.nextId, db.rows.filter (fun r => !(r.id == pid))⟩)

/-- Insert `x` into `l` before the first element `y` with `le x y`:
one step of the stable insertion sort we use to model `ORDER BY`. -/
def insertSorted (le : α → α → Bool) (x : α) : List α → List α
  | [] => [x]
  | y :: ys => if le x y then x :: y :: ys else y :: insertSorted le x ys

/-- Stable sort of the table by `le`, modelling SQL `ORDER BY`: rows are
scanned in rowid order and ties keep that order. -/
def sortBy (le : α → α → Bool) : List α → List α
  | [] => []
  | x :: xs => insertSorted le x (sortBy le xs)

/-- SQLite BINARY collation on text: lexicographic by code point (UTF-8 byte
order coincides with code-point order). -/
def strLeChars : List Char → List Char → Bool
  | [], _ => true
  | _ :: _, [] => false
  | a :: l, b :: m =>
    if a.toNat < b.toNat then true
    else if b.toNat < a.toNat then false
    else strLeChars l m

/-- `ORDERABLE_COLUMNS` (`inventory_manager.py:91`). -/
def ORDERABLE_COLUMNS : List String :=
  ["id", "code", "name", "quantity", "price", "category", "location"]

/-- The SQL comparison `a.<col> <= b.<col>` for each orderable column. -/
def colLe (col : String) (a b : Product) : Bool :=
  if col = "id" then a.id ≤ b.id
  else if col = "code" then strLeChars a.code.data b.code.data
  else if col = "name" then strLeChars a.name.data b.name.data
  else if col = "quantity" then a.quantity ≤ b.quantity
  else if col = "price" then a.price ≤ b.price
  else if col = "category" then strLeChars a.category.data b.category.data
  else strLeChars a.location.data b.location.data

/-- `ORDER BY col ASC|DESC` over a result set: descending sorts by the
flipped comparison (stable either way). -/
def applySort (col : String) (descending : Bool) (rows : List Product) : List Product :=
  if descending then sortBy (fun a b => colLe col b a) rows
  else sortBy (fun a b => colLe col a b) rows

/-- Python `str.lower()` restricted to ASCII (column names are ASCII). -/
def lowerString (s : String) : String :=
  ⟨s.data.map lowerAscii⟩

/-- `_build_order_clause` (`inventory_manager.py:94`): no field means no
sorting; otherwise the lower-cased field must be an orderable column, else
`invalidSortField` (a `ValueError` in the source), and the resulting clause
sorts by that column in the requested direction. -/
def build_order_clause (order_by : Option String) (descending : Bool) :
    Except StoreError (List Product → List Product) :=
  match order_by with
  | none => .ok (fun rows => rows)
  | some f =>
    let f := lowerString f
    if ORDERABLE_COLUMNS.contains f then .ok (applySort f descending)
    else .error .invalidSortField

/-- `get_all_products` (`inventory_manager.py:106`): SELECT every row,
with the optional ORDER BY clause. -/
def get_all_products (order_by : Option String) (descending : Bool) (db : DB) :
    Except StoreError (List Product) :=
  match build_order_clause order_by descending with
  | .error e => .error e
  | .ok sorter => .ok (sorter db.rows)

/-- SQLite `LIKE` matching (pattern, candidate): `%` matches any run,
`_` any single character, anything else matches itself up to ASCII case
folding.  Recursion is structural on the pattern: a leading `%` tries every
suffix of the candidate. -/
def likeMatch : List Char → List Char → Bool
  | [], s => s.isEmpty
  | a :: p, s =>
    if a = '%' then s.tails.any (fun t => likeMatch p t)
    else
      match s with
      | [] => false
      | c :: t => (if a = '_' then true else lowerAscii a == lowerAscii c) && likeMatch p t

/-- The predicate of `search_products` (`inventory_manager.py:178`): the
field is matched against the pattern `f"%{term.strip()}%"`. -/
def likeTermMatch (term : String) (field : String) : Bool :=
  likeMatch ('%' :: (strip term).data ++ ['%']) field.data

/-- `search_products` (`inventory_manager.py:178`): the order clause is
built before the query runs, then rows whose `code` or `name` matches
`%term.strip()%` are returned in sorted (or rowid) order. -/
def search_products (term : String) (order_by : Option String)
    (descending : Bool) (db : DB) : Except StoreError (List Product) :=
  match build_order_clause order_by descending with
  | .error e => .error e
  | .ok sorter =>
    .ok (sorter (db.rows.filter
      (fun r => likeTermMatch term r.code || likeTermMatch term r.name)))

/-- `filter_by_category` (`inventory_manager.py:197`): exact match against
the stripped argument. -/
def filter_by_category (category : String) (order_by : Option String)
    (descending : Bool) (db : DB) : Except StoreError (List Product) :=
  match build_order_clause order_by descending with
  | .error e => .error e
  | .ok sorter => .ok (sorter (db.rows.filter (fun r => r.category == strip category)))

/-- `filter_by_location` (`inventory_manager.py:211`): exact match against
the stripped argument. -/
def filter_by_location (location : String) (order_by : Option String)
    (descending : Bool) (db : DB) : Except StoreError (List Product) :=
  match build_order_clause order_by descending with
  | .error e => .error e
  | .ok sorter => .ok (sorter (db.rows.filter (fun r => r.location == strip location)))

/-- `get_low_stock_items` (`inventory_manager.py:225`): rejects a negative
threshold, else returns rows with `quantity <= threshold` in rowid order —
this read path takes no sort argument. -/
def get_low_stock_items (threshold : Int) (db : DB) :
    Except StoreError (List Product) :=
  if threshold < 0 then .error .invalidThreshold
  else .ok (db.rows.filter (fun r => r.quantity ≤ threshold))

/-- The `QueryDescriptor` of §4.2: the tagged variant behind the TUI's
`data_loader` closures (`inventory_tui.py` `_search_dialog`/`_filter_dialog`). -/
inductive QueryDescriptor where
  | all
  | search (term : String)
  | byCategory (value : String)
  | byLocation (value : String)
  | lowStock (threshold : Int)
deriving DecidableEq

/-- Evaluation of the active descriptor, exactly as the TUI's `data_loader`
closures call into `inventory_manager`: `all`/`search`/`byCategory`/
`byLocation` pass the live `order_by`/`descending` pair to the store read;
the `lowStock` loader (`_filter_dialog`, choice "3") calls
`get_low_stock_items(threshold)` with no sort at all. -/
def evaluate (q : QueryDescriptor) (order_by : Option String) (descending : Bool)
    (db : DB) : Except StoreError (List Product) :=
  match q with
  | .all => get_all_products order_by descending db
  | .search t => search_products t order_by descending db
  | .byCategory v => filter_by_category v order_by descending db
  | .byLocation v => filter_by_location v order_by descending db
  | .lowStock t => get_low_stock_items t db

/-- A mutating store call as issued by a caller: the arguments of one
`add_product` or `update_product` invocation. -/
inductive StoreOp where
  | add (code name description category : String) (quantity : Int)
      (price : Rat) (location : String)
  | update (pid : Int) (patch : Patch)

/-- Run one operation the way every caller in the repository does: a raised
`ValueError` is caught and leaves the database untouched. -/
def applyStoreOp (db : DB) : StoreOp → DB
  | .add c n d cat q p l =>
    match add_product c n d cat q p l db with
    | .ok db' => db'
    | .error _ => db
  | .update pid patch =>
    match update_product pid patch db with
    | .ok (_, db') => db'
    | .error _ => db

/-- Run a sequence of mutating store calls. -/
def runOps (db : DB) (ops : List StoreOp) : DB :=
  ops.foldl applyStoreOp db

/-- The controller state of `InventoryTUI` (`inventory_tui.py:49`) that the
clamping invariant is about: the fetched `rows`, `selected_index`,
`top_row`, and the terminal height `getmaxyx()` reports.  Indices are `Int`
as in Python. -/
structure TuiState where
  rows : List Product
  selectedIndex : Int
  topRow : Int
  height : Int
deriving DecidableEq

/-- `table_height` (`inventory_tui.py:108`): `max(0, height - 4)`. -/
def tableHeight (s : TuiState) : Int :=
  max 0 (s.height - 4)

/-- The two `top_row` adjustment steps shared verbatim by
`_clamp_selection` and `_move_selection`: pull `top_row` up to the
selection, then push it down so the selection is inside the viewport. -/
def reclampTop (sel top h : Int) : Int :=
  let top1 := if sel < top then sel else top
  if sel ≥ top1 + h then sel - h + 1 else top1

/-- `_clamp_selection` (`inventory_tui.py:84`). -/
def clampSelection (s : TuiState) : TuiState :=
  if s.rows.isEmpty then { s with selectedIndex := 0, topRow := 0 }
  else
    let sel := max 0 (min s.selectedIndex ((s.rows.length : Int) - 1))
    { s with selectedIndex := sel, topRow := reclampTop sel s.topRow (tableHeight s) }

/-- `_move_selection` (`inventory_tui.py:283`): no-op on an empty table,
else clamp `selected_index + delta` and re-adjust `top_row` by the same
two steps as `_clamp_selection`. -/
def moveSelection (s : TuiState) (delta : Int) : TuiState :=
  if s.rows.isEmpty then s
  else
    let sel := max 0 (min (s.selectedIndex + delta) ((s.rows.length : Int) - 1))
    { s with selectedIndex := sel, topRow := reclampTop sel s.topRow (tableHeight s) }

/-- The navigation / reload / resize events the claimed invariant quantifies
over, as dispatched by `run` and `_handle_key`/`_handle_mouse`
(`inventory_tui.py:180`).  `reloadOk rows` is `refresh_data` with the data
loader returning `rows`; `reloadFail` is `refresh_data` when the loader
raises (rows are cleared, *without* re-clamping). -/
inductive TuiEvent where
  | keyDown
  | keyUp
  | pageDown
  | pageUp
  | keyHome
  | keyEnd
  | resize (newHeight : Int)
  | reloadOk (newRows : List Product)
  | reloadFail
  | click (y : Int)

/-- One step of the controller event loop.  `keyHome` sets both indices to 0
directly; `keyEnd` jumps to `max(0, len-1)` then clamps; `resize` re-clamps
under the new height; `click y` is `_select_row_at` (`inventory_tui.py:269`);
`reloadOk`/`reloadFail` are the two branches of `refresh_data`
(`inventory_tui.py:68`). -/
def step (s : TuiState) : TuiEvent → TuiState
  | .keyDown => moveSelection s 1
  | .keyUp => moveSelection s (-1)
  | .pageDown => moveSelection s (tableHeight s)
  | .pageUp => moveSelection s (-(tableHeight s))
  | .keyHome => { s with selectedIndex := 0, topRow := 0 }
  | .keyEnd => clampSelection { s with selectedIndex := max 0 ((s.rows.length : Int) - 1) }
  | .resize h => clampSelection { s with height := h }
  | .reloadOk newRows => clampSelection { s with rows := newRows }
  | .reloadFail => { s with rows := [] }
  | .click y =>
    if y < 3 then s
    else if y - 3 ≥ tableHeight s then s
    else if s.rows.isEmpty || decide ((s.rows.length : Int) ≤ s.topRow + (y - 3)) then s
    else clampSelection { s with selectedIndex := s.topRow + (y - 3) }

/-- Run a sequence of events through the controller. -/
def runEvents (s : TuiState) (evts : List TuiEvent) : TuiState :=
  evts.foldl step s

/-- The clamping invariant of §4.3, plus the facts (`0 ≤ topRow`, height
known to the state) needed for it to be preserved: on an empty table both
indices are `0`; on a non-empty table the selection is a valid row index and
sits inside the viewport. -/
def tuiInv (s : TuiState) : Prop :=
  5 ≤ s.height ∧
  (if s.rows.isEmpty then s.selectedIndex = 0 ∧ s.topRow = 0
   else 0 ≤ s.selectedIndex ∧ s.selectedIndex < (s.rows.length : Int) ∧
        0 ≤ s.topRow ∧ s.topRow ≤ s.selectedIndex ∧
        s.selectedIndex < s.topRow + tableHeight s)

/-- The events under which the invariant is actually maintained by the code:
every reload succeeds and the terminal never shrinks below 5 rows (so the
viewport keeps at least one row). -/
def goodEvent : TuiEvent → Prop
  | .reloadFail => False
  | .resize h => 5 ≤ h
  | _ => True

/-- `insertSorted` permutes: inserting is a cons up to permutation. -/
theorem perm_insertSorted (le : α → α → Bool) (x : α) :
    ∀ l : List α, List.Perm (insertSorted le x l) (x :: l) := by
  intro l
  induction l with
  | nil => simp [insertSorted]
  | cons y ys ih =>
    simp only [insertSorted]
    by_cases h : le x y = true
    · simp [h]
    · simp only [h, if_neg]
      exact (ih.cons y).trans (List.Perm.swap x y ys)

/-- `sortBy` permutes its input. -/
theorem perm_sortBy (le : α → α → Bool) :
    ∀ l : List α, List.Perm (sortBy le l) l := by
  intro l
  induction l with
  | nil => simp [sortBy]
  | cons x xs ih =>
    exact (perm_insertSorted le x (sortBy le xs)).trans (ih.cons x)

/-- Membership in an insertion. -/
theorem mem_insertSorted (le : α → α → Bool) (x : α) (l : List α) (z : α) :
    z ∈ insertSorted le x l ↔ z = x ∨ z ∈ l := by
  rw [(perm_insertSorted le x l).mem_iff]
  simp

/-- For a total transitive comparison, inserting into a chain-ordered list
keeps it chain-ordered. -/
theorem pairwise_insertSorted (le : α → α → Bool)
    (htot : ∀ a b, le a b = true ∨ le b a = true)
    (htrans : ∀ a b c, le a b = true → le b c = true → le a c = true)
    (x : α) : ∀ l : List α, l.Pairwise (fun a b => le a b = true) →
      (insertSorted le x l).Pairwise (fun a b => le a b = true) := by
  intro l
  induction l with
  | nil => intro _; simp [insertSorted]
  | cons y ys ih =>
    intro hp
    rcases List.pairwise_cons.1 hp with ⟨hy, hys⟩
    simp only [insertSorted]
    by_cases h : le x y = true
    · simp only [h, if_pos]
      refine List.pairwise_cons.2 ⟨?_, hp⟩
      intro z hz
      rcases List.mem_cons.1 hz with rfl | hz
      · exact h
      · exact htrans x y z h (hy z hz)
    · simp only [h, if_neg]
      refine List.pairwise_cons.2 ⟨?_, ih hys⟩
      intro z hz
      rcases (mem_insertSorted le x ys z).1 hz with heq | hz
      · rw [heq]
        rcases htot x y with hxy | hyx
        · exact absurd hxy h
        · exact hyx
      · exact hy z hz

/-- `sortBy` chain-orders its output for a total transitive comparison. -/
theorem pairwise_sortBy (le : α → α → Bool)
    (htot : ∀ a b, le a b = true ∨ le b a = true)
    (htrans : ∀ a b c, le a b = true → le b c = true → le a c = true) :
    ∀ l : List α, (sortBy le l).Pairwise (fun a b => le a b = true) := by
  intro l
  induction l with
  | nil => simp [sortBy]
  | cons x xs ih => exact pairwise_insertSorted le htot htrans x (sortBy le xs) ih

/-- Two permuted lists that are both chained by an asymmetric relation are
equal (sorted permutations under a strict order are unique). -/
theorem eq_of_perm_of_pairwise_asymm {rs : α → α → Prop}
    (hasymm : ∀ a b, rs a b → rs b a → False) :
    ∀ l₁ l₂ : List α, List.Perm l₁ l₂ → l₁.Pairwise rs → l₂.Pairwise rs → l₁ = l₂ := by
  intro l₁
  induction l₁ with
  | nil => intro l₂ hp _ _; simpa using hp.nil_eq
  | cons x xs ih =>
    intro l₂ hp h₁ h₂
    cases l₂ with
    | nil => exact absurd hp.symm.nil_eq (by simp)
    | cons y ys =>
      rcases List.pairwise_cons.1 h₁ with ⟨hx, hxs⟩
      rcases List.pairwise_cons.1 h₂ with ⟨hy, hys⟩
      have hxy : x = y := by
        by_contra hne
        have hyx : y ∈ x :: xs := hp.mem_iff.2 (by simp)
        have hymem : y ∈ xs := by
          rcases hyx with _ | hyx
          · exact absurd rfl hne
          · assumption
        have hxy' : x ∈ y :: ys := hp.mem_iff.1 (by simp)
        have hxmem : x ∈ ys := by
          rcases hxy' with _ | hxy'
          · exact absurd rfl (fun h => hne h.symm)
          · assumption
        exact hasymm x y (hx y hymem) (hy x hxmem)
      subst hxy
      have : xs = ys := ih ys (hp.cons_inv) hxs hys
      rw [this]

/-- Sorting by the flipped comparison yields exactly the reverse of sorting
by the comparison, provided no two list elements tie (for tied elements a
stable sort keeps their relative order in both directions, so the outputs
would not be reverses of each other). -/
theorem sortBy_flip_reverse (le : α → α → Bool)
    (htot : ∀ a b, le a b = true ∨ le b a = true)
    (htrans : ∀ a b c, le a b = true → le b c = true → le a c = true)
    (l : List α) (hd : l.Pairwise (fun a b => ¬(le a b = true ∧ le b a = true))) :
    sortBy (fun a b => le b a) l = (sortBy le l).reverse := by
  have permA := perm_sortBy le l
  have permD := perm_sortBy (fun a b => le b a) l
  have pwA := pairwise_sortBy le htot htrans l
  have pwD := pairwise_sortBy (fun a b => le b a)
    (fun a b => (htot b a).symm.imp id id |>.symm)
    (fun a b c hab hbc => htrans c b a hbc hab) l
  have pwneA : (sortBy le l).Pairwise (fun a b => ¬(le a b = true ∧ le b a = true)) :=
    (permA.pairwise_iff (fun h hc => h ⟨hc.2, hc.1⟩)).2 hd
  have pwneD : (sortBy (fun a b => le b a) l).Pairwise
      (fun a b => ¬(le a b = true ∧ le b a = true)) :=
    (permD.pairwise_iff (fun h hc => h ⟨hc.2, hc.1⟩)).2 hd
  have pwsA : (sortBy le l).Pairwise (fun a b => le a b = true ∧ ¬(le b a = true)) :=
    (pwA.and pwneA).imp (fun h => ⟨h.1, fun hba => h.2 ⟨h.1, hba⟩⟩)
  have pwsD : (sortBy (fun a b => le b a) l).Pairwise
      (fun a b => le b a = true ∧ ¬(le a b = true)) :=
    (pwD.and pwneD).imp (fun h => ⟨h.1, fun hab => h.2 ⟨hab, h.1⟩⟩)
  have pwsDrev : (sortBy (fun a b => le b a) l).reverse.Pairwise
      (fun a b => le a b = true ∧ ¬(le b a = true)) := by
    rw [List.pairwise_reverse]
    exact pwsD
  have hperm : List.Perm (sortBy le l) (sortBy (fun a b => le b a) l).reverse :=
    permA.trans (permD.symm.trans ((sortBy (fun a b => le b a) l).reverse_perm).symm)
  have heq : sortBy le l = (sortBy (fun a b => le b a) l).reverse :=
    eq_of_perm_of_pairwise_asymm
      (fun a b h1 h2 => h1.2 h2.1) _ _ hperm pwsA pwsDrev
  calc sortBy (fun a b => le b a) l
      = (sortBy (fun a b => le b a) l).reverse.reverse := by rw [List.reverse_reverse]
    _ = (sortBy le l).reverse := by rw [heq]

/-- Normal form of `add_product`: the two validations then the atomic
uniqueness check, in source order. -/
theorem add_product_eq (code n d cat : String) (q : Int) (p : Rat)
    (loc : String) (db : DB) :
    add_product code n d cat q p loc db =
      (if q < 0 then .error .invalidQuantity
       else if p < 0 then .error .invalidPrice
       else if db.rows.any (fun r => r.code == code) then .error .duplicateCode
       else .ok ⟨db.nextId + 1,
         db.rows ++ [⟨db.nextId, code, strip n, strip d, strip cat, q, p,
                      strip loc⟩]⟩) := by
  unfold add_product validate_quantity validate_price
  by_cases hq : q < 0 <;> by_cases hp : p < 0 <;> simp [hq, hp]

/-- C2: `add` fails with `InvalidQuantity` iff `quantity < 0`; given
`quantity ≥ 0` it fails with `InvalidPrice` iff `price < 0`; given valid
numbers, a `code` already present (exact equality, checked at write time)
yields `DuplicateCode`, and the catalog the caller holds afterwards is
unchanged in row count and contents. -/
theorem add_error_classification (code n d cat : String) (q : Int) (p : Rat)
    (loc : String) (db : DB) :
    (add_product code n d cat q p loc db = .error .invalidQuantity ↔ q < 0) ∧
    (0 ≤ q →
      (add_product code n d cat q p loc db = .error .invalidPrice ↔ p < 0)) ∧
    (0 ≤ q → 0 ≤ p → db.rows.any (fun r => r.code == code) = true →
      add_product code n d cat q p loc db = .error .duplicateCode ∧
      applyStoreOp db (.add code n d cat q p loc) = db) := by
  refine ⟨?_, ?_, ?_⟩
  · rw [add_product_eq]
    split_ifs with h1 h2 h3 <;> simp_all
  · intro hq
    rw [add_product_eq]
    split_ifs with h1 h2 h3 <;> simp_all
    omega
  · intro hq hp hdup
    have h : add_product code n d cat q p loc db = .error .duplicateCode := by
      rw [add_product_eq]
      split_ifs with h1 h2 <;> first | omega | (exfalso; exact absurd hp (by simpa using h2)) | rfl
    refine ⟨h, ?_⟩
    simp [applyStoreOp, h]

/-- C2 witness: a negative quantity, a negative price, and a duplicate code
each produce the claimed error on a concrete catalog. -/
theorem add_error_classification_witness :
    (add_product "A1" "W" "" "" (-1) 1 "" ⟨1, []⟩ = .error .invalidQuantity) ∧
    (add_product "A1" "W" "" "" 0 (-2) "" ⟨1, []⟩ = .error .invalidPrice) ∧
    (add_product "A1" "X" "" "" 0 0 ""
        ⟨2, [⟨1, "A1", "W", "", "", 1, 1, ""⟩]⟩ = .error .duplicateCode ∧
      applyStoreOp ⟨2, [⟨1, "A1", "W", "", "", 1, 1, ""⟩]⟩
        (.add "A1" "X" "" "" 0 0 "") = ⟨2, [⟨1, "A1", "W", "", "", 1, 1, ""⟩]⟩) :=
  ⟨(add_error_classification "A1" "W" "" "" (-1) 1 "" ⟨1, []⟩).1.mpr (by decide),
   ((add_error_classification "A1" "W" "" "" 0 (-2) "" ⟨1, []⟩).2.1
      (by decide)).mpr (by decide),
   (add_error_classification "A1" "X" "" "" 0 0 ""
      ⟨2, [⟨1, "A1", "W", "", "", 1, 1, ""⟩]⟩).2.2 (by decide) (by decide) (by decide)⟩

/-- C3: with `quantity ≥ 0`, `price ≥ 0` and a fresh `code`, `add` succeeds,
the assigned id (`db.nextId`, the AUTOINCREMENT value) differs from every id
already in the catalog, the new catalog is the old rows plus exactly the
supplied row (code as supplied, the other four text fields trimmed), the
id-freshness invariant is maintained, and a subsequent `getAll` (no sort)
returns a list containing that row. -/
theorem add_valid_inserts (code n d cat : String) (q : Int) (p : Rat)
    (loc : String) (db : DB)
    (hinv : ∀ r ∈ db.rows, r.id < db.nextId) (hq : 0 ≤ q) (hp : 0 ≤ p)
    (hfresh : db.rows.any (fun r => r.code == code) = false) :
    ∃ db', add_product code n d cat q p loc db = .ok db' ∧
      (∀ r ∈ db.rows, r.id ≠ db.nextId) ∧
      db'.rows = db.rows ++
        [⟨db.nextId, code, strip n, strip d, strip cat, q, p, strip loc⟩] ∧
      (∀ r ∈ db'.rows, r.id < db'.nextId) ∧
      get_all_products none false db' = .ok db'.rows ∧
      (⟨db.nextId, code, strip n, strip d, strip cat, q, p, strip loc⟩ : Product)
        ∈ db'.rows := by
  refine ⟨⟨db.nextId + 1,
    db.rows ++ [⟨db.nextId, code, strip n, strip d, strip cat, q, p, strip loc⟩]⟩,
    ?_, ?_, rfl, ?_, rfl, by simp⟩
  · rw [add_product_eq]
    split_ifs with h1 h2 h3
    · omega
    · exact absurd hp (by simpa using h2)
    · rw [hfresh] at h3; cases h3
    · rfl
  · intro r hr
    exact Int.ne_of_lt (hinv r hr)
  · intro r hr
    show r.id < db.nextId + 1
    rcases List.mem_append.1 hr with hr | hr
    · have := hinv r hr
      omega
    · simp only [List.mem_singleton] at hr
      rw [hr]
      show db.nextId < db.nextId + 1
      omega

/-- C3 witness: adding a concrete valid product to a one-row catalog. -/
theorem add_valid_inserts_witness :
    ∃ db', add_product "A2" " Gadget " "" "Tools" 3 1 "S2"
        ⟨2, [⟨1, "A1", "Widget", "", "Tools", 10, 1, "S1"⟩]⟩ = .ok db' ∧
      (∀ r ∈ [(⟨1, "A1", "Widget", "", "Tools", 10, 1, "S1"⟩ : Product)],
        r.id ≠ 2) ∧
      db'.rows = [⟨1, "A1", "Widget", "", "Tools", 10, 1, "S1"⟩] ++
        [⟨2, "A2", strip " Gadget ", strip "", strip "Tools", 3, 1, strip "S2"⟩] ∧
      (∀ r ∈ db'.rows, r.id < db'.nextId) ∧
      get_all_products none false db' = .ok db'.rows ∧
      (⟨2, "A2", strip " Gadget ", strip "", strip "Tools", 3, 1, strip "S2"⟩ : Product)
        ∈ db'.rows :=
  add_valid_inserts "A2" " Gadget " "" "Tools" 3 1 "S2"
    ⟨2, [⟨1, "A1", "Widget", "", "Tools", 10, 1, "S1"⟩]⟩
    (by decide) (by decide) (by decide) (by decide)

/-- An all-absent patch has an absent quantity and price. -/
theorem emptyPatch_fields (patch : Patch) (h : emptyPatch patch = true) :
    patch.quantity = none ∧ patch.price = none := by
  simp only [emptyPatch, Bool.and_eq_true, Option.isNone_iff_eq_none] at h
  exact ⟨h.1.1.2, h.1.2⟩

/-- C5: `update` fails with `NoFieldsProvided` exactly when every mutable
field is absent, and then the caller's catalog is untouched; a present
negative quantity fails with `InvalidQuantity` (before the emptiness check,
as in `add`), a present negative price with `InvalidPrice` (after the
quantity check, as in `add`); otherwise it returns found/not-found — whether
some row has the id — and never errors on a missing id. -/
theorem update_error_classification (pid : Int) (patch : Patch) (db : DB) :
    (update_product pid patch db = .error .noFieldsProvided ↔
      emptyPatch patch = true) ∧
    (emptyPatch patch = true → applyStoreOp db (.update pid patch) = db) ∧
    (patch.quantity.any (fun q => decide (q < 0)) = true →
      update_product pid patch db = .error .invalidQuantity) ∧
    (patch.quantity.any (fun q => decide (q < 0)) = false →
      patch.price.any (fun x => decide (x < 0)) = true →
      update_product pid patch db = .error .invalidPrice) ∧
    (patch.quantity.any (fun q => decide (q < 0)) = false →
      patch.price.any (fun x => decide (x < 0)) = false →
      emptyPatch patch = false →
      update_product pid patch db =
        .ok (db.rows.any (fun r => r.id == pid),
          ⟨db.nextId,
           db.rows.map (fun r => if r.id == pid then applyPatch patch r else r)⟩)) := by
  refine ⟨?_, ?_, ?_, ?_, ?_⟩
  · constructor
    · intro h
      unfold update_product at h
      split_ifs at h with h1 h2 h3
      · simp at h
      · simp at h
      · exact h3
    · intro hemp
      rcases emptyPatch_fields patch hemp with ⟨hqn, hpn⟩
      unfold update_product
      simp [hqn, hpn, hemp]
  · intro hemp
    rcases emptyPatch_fields patch hemp with ⟨hqn, hpn⟩
    have h : update_product pid patch db = .error .noFieldsProvided := by
      unfold update_product
      simp [hqn, hpn, hemp]
    simp [applyStoreOp, h]
  · intro h1
    unfold update_product
    simp [h1]
  · intro h1 h2
    unfold update_product
    simp [h1, h2]
  · intro h1 h2 h3
    unfold update_product
    simp [h1, h2, h3]

/-- C5 witness: the all-absent patch errors with `NoFieldsProvided` and
leaves a concrete catalog unchanged; a quantity-only patch on a missing id
returns not-found without error. -/
theorem update_error_classification_witness :
    (update_product 7 ⟨none, none, none, none, none, none⟩
        ⟨2, [⟨1, "A1", "W", "", "", 1, 1, ""⟩]⟩ = .error .noFieldsProvided) ∧
    (applyStoreOp ⟨2, [⟨1, "A1", "W", "", "", 1, 1, ""⟩]⟩
        (.update 7 ⟨none, none, none, none, none, none⟩) =
      ⟨2, [⟨1, "A1", "W", "", "", 1, 1, ""⟩]⟩) ∧
    (update_product 7 ⟨none, none, none, some 5, none, none⟩
        ⟨2, [⟨1, "A1", "W", "", "", 1, 1, ""⟩]⟩ =
      .ok (false, ⟨2, [⟨1, "A1", "W", "", "", 1, 1, ""⟩]⟩)) := by
  refine ⟨(update_error_classification 7 ⟨none, none, none, none, none, none⟩
      ⟨2, [⟨1, "A1", "W", "", "", 1, 1, ""⟩]⟩).1.mpr (by decide),
    (update_error_classification 7 ⟨none, none, none, none, none, none⟩
      ⟨2, [⟨1, "A1", "W", "", "", 1, 1, ""⟩]⟩).2.1 (by decide), ?_⟩
  have h := (update_error_classification 7 ⟨none, none, none, some 5, none, none⟩
      ⟨2, [⟨1, "A1", "W", "", "", 1, 1, ""⟩]⟩).2.2.2.2 (by decide) (by decide) (by decide)
  rw [h]
  rfl

/-- C6: a quantity-only update on an existing row succeeds, reports found,
and maps the catalog so that rows with the id get only their `quantity`
replaced (id, code, name, description, category, price, location kept) while
every other row — and the id counter — is untouched. -/
theorem update_quantity_frame (pid : Int) (q : Int) (db : DB) (hq : 0 ≤ q)
    (hex : db.rows.any (fun r => r.id == pid) = true) :
    update_product pid ⟨none, none, none, some q, none, none⟩ db =
      .ok (true, ⟨db.nextId,
        db.rows.map (fun r =>
          if r.id == pid then { r with quantity := q } else r)⟩) := by
  unfold update_product
  have hq' : decide (q < 0) = false := by simp; omega
  simp [emptyPatch, hq', hex]
  intro a _
  split <;> rfl

/-- C6 witness: setting quantity to 5 on row 1 of a two-row catalog changes
exactly that row's quantity. -/
theorem update_quantity_frame_witness :
    update_product 1 ⟨none, none, none, some 5, none, none⟩
        ⟨3, [⟨1, "A1", "W", "d", "c", 10, 2, "L"⟩, ⟨2, "A2", "G", "", "", 3, 9, ""⟩]⟩ =
      .ok (true, ⟨3, [⟨1, "A1", "W", "d", "c", 5, 2, "L"⟩,
                      ⟨2, "A2", "G", "", "", 3, 9, ""⟩]⟩) := by
  have h := update_quantity_frame 1 5
    ⟨3, [⟨1, "A1", "W", "d", "c", 10, 2, "L"⟩, ⟨2, "A2", "G", "", "", 3, 9, ""⟩]⟩
    (by decide) (by decide)
  rw [h]
  rfl

/-- C10: `add` stores `code` exactly as supplied — the catalog's code column
after a successful add is the old column plus the unmodified argument (no
trimming, unlike the other text fields) — and uniqueness is exact string
equality, so `"A1"` and `" A1"` coexist as distinct rows. -/
theorem add_code_exact :
    (∀ (c n d cat : String) (q : Int) (p : Rat) (loc : String) (db db' : DB),
      add_product c n d cat q p loc db = .ok db' →
      db'.rows.map Product.code = db.rows.map Product.code ++ [c]) ∧
    (∃ db₁ db₂, add_product "A1" "Widget" "" "" 1 1 "S" ⟨1, []⟩ = .ok db₁ ∧
      add_product " A1" "Widget" "" "" 1 1 "S" db₁ = .ok db₂ ∧
      db₂.rows.map Product.code = ["A1", " A1"] ∧ db₂.rows.length = 2) := by
  constructor
  · intro c n d cat q p loc db db' h
    rw [add_product_eq] at h
    split_ifs at h with h1 h2 h3
    cases h
    simp
  · exact ⟨⟨2, [⟨1, "A1", "Widget", "", "", 1, 1, "S"⟩]⟩,
      ⟨3, [⟨1, "A1", "Widget", "", "", 1, 1, "S"⟩,
           ⟨2, " A1", "Widget", "", "", 1, 1, "S"⟩]⟩,
      by rfl, by rfl, by decide, by decide⟩

/-- C10 witness for the universal part: a concrete add appends exactly the
supplied (untrimmed) code to the code column. -/
theorem add_code_exact_witness :
    (⟨2, [⟨1, " A1 ", "W", "", "", 0, 0, ""⟩]⟩ : DB).rows.map Product.code =
      (⟨1, []⟩ : DB).rows.map Product.code ++ [" A1 "] :=
  add_code_exact.1 " A1 " " W " "" "" 0 0 "" ⟨1, []⟩
    ⟨2, [⟨1, " A1 ", "W", "", "", 0, 0, ""⟩]⟩ (by rfl)

/-- Caller obligations under which non-empty code/name is preserved: adds
supply a non-empty code and a name non-empty after trimming, updates supply,
when present, a name non-empty after trimming.  (The TUI add dialog enforces
the add conditions; the store itself does not.) -/
def goodOp : StoreOp → Prop
  | .add c n _ _ _ _ _ => c ≠ "" ∧ strip n ≠ ""
  | .update _ patch => ∀ v, patch.name = some v → strip v ≠ ""

/-- C4 counterexample: the store-level `add` accepts an empty code and an
empty name (it validates only quantity and price; SQLite's `UNIQUE` and
`NOT NULL` both admit the empty string), so one add operation yields a
catalog containing a row whose code and name are both empty — refuting the
claim that no add/update sequence can produce such a row. -/
theorem empty_code_name_reachable :
    (runOps ⟨1, []⟩ [.add "" "" "" "" 0 0 ""]).rows.any
      (fun r => r.code == "" && r.name == "") = true := by
  decide

/-- C4 amended: every stored row keeps a non-empty code and name across any
sequence of add and update operations *provided* each operation satisfies
the caller obligations of `goodOp` (non-empty code, non-empty-after-trim
name); without them the store accepts empty values. -/
theorem nonempty_code_name_preserved (db : DB) (ops : List StoreOp)
    (hdb : ∀ r ∈ db.rows, r.code ≠ "" ∧ r.name ≠ "")
    (hops : ∀ op ∈ ops, goodOp op) :
    ∀ r ∈ (runOps db ops).rows, r.code ≠ "" ∧ r.name ≠ "" := by
  induction ops generalizing db with
  | nil => exact hdb
  | cons op rest ih =>
    have hstep : ∀ r ∈ (applyStoreOp db op).rows, r.code ≠ "" ∧ r.name ≠ "" := by
      have hop : goodOp op := hops op (by simp)
      cases op with
      | add c n d cat q p l =>
        simp only [applyStoreOp]
        rw [add_product_eq]
        split_ifs with h1 h2 h3
        · exact hdb
        · exact hdb
        · exact hdb
        · intro r hr
          rcases List.mem_append.1 hr with hr | hr
          · exact hdb r hr
          · simp only [List.mem_singleton] at hr
            rw [hr]
            exact hop
      | update pid patch =>
        simp only [applyStoreOp]
        unfold update_product
        split_ifs with h1 h2 h3
        · exact hdb
        · exact hdb
        · exact hdb
        · intro r hr
          simp only [List.mem_map] at hr
          rcases hr with ⟨r₀, hr₀, hmap⟩
          rw [← hmap]
          by_cases hid : (r₀.id == pid) = true
          · simp only [hid, if_pos]
            unfold applyPatch
            rcases hp : patch.name with _ | v
            · simp only [hp]
              exact ⟨(hdb r₀ hr₀).1, (hdb r₀ hr₀).2⟩
            · simp only [hp]
              exact ⟨(hdb r₀ hr₀).1, hop v hp⟩
          · simp only [hid, if_neg]
            simp only [Bool.not_eq_true] at hid
            exact hdb r₀ hr₀
    have hrest : ∀ op' ∈ rest, goodOp op' := fun op' h => hops op' (by simp [h])
    exact ih (applyStoreOp db op) hstep hrest

/-- C4 amended witness: a concrete good sequence (one add, one name update)
keeps code and name non-empty in every row. -/
theorem nonempty_code_name_preserved_witness :
    (runOps ⟨1, []⟩
      [.add "A1" " Widget " "" "" 0 0 "",
       .update 1 ⟨some " Gadget ", none, none, none, none, none⟩]).rows.all
      (fun r => !(r.code == "") && !(r.name == "")) = true := by
  rw [List.all_eq_true]
  intro r hr
  have h := nonempty_code_name_preserved ⟨1, []⟩
    [.add "A1" " Widget " "" "" 0 0 "",
     .update 1 ⟨some " Gadget ", none, none, none, none, none⟩]
    (by intro r hr; simp at hr)
    (by
      intro op hop
      rcases List.mem_cons.1 hop with heq | hop
      · rw [heq]; exact ⟨by decide, by decide⟩
      · rcases List.mem_cons.1 hop with heq | hop
        · rw [heq]
          intro v hv
          injection hv with hv
          rw [← hv]
          decide
        · cases hop)
    r hr
  simp [h.1, h.2]

/-- ASCII-case-insensitive "starts with". -/
def startsWithCI : List Char → List Char → Bool
  | [], _ => true
  | _ :: _, [] => false
  | a :: q, c :: s => (lowerAscii a == lowerAscii c) && startsWithCI q s

/-- ASCII-case-insensitive substring containment: some suffix of `s` starts
with `q`.  This is the spec's "contains term as a case-insensitive
substring" (§4.1). -/
def containsCI (q s : List Char) : Bool :=
  s.tails.any (fun t => startsWithCI q t)

/-- Patterns free of the `LIKE` wildcards `%` and `_`. -/
def noWildcard (q : List Char) : Bool :=
  q.all (fun c => !(c == '%') && !(c == '_'))

/-- `any` respects pointwise equal predicates. -/
theorem anyCongr (l : List α) (f g : α → Bool) (h : ∀ x ∈ l, f x = g x) :
    l.any f = l.any g := by
  induction l with
  | nil => rfl
  | cons x xs ih =>
    simp only [List.any_cons]
    rw [h x (by simp), ih (fun y hy => h y (by simp [hy]))]

/-- A bare `%` pattern matches everything. -/
theorem likeMatch_pct (s : List Char) : likeMatch ['%'] s = true := by
  simp only [likeMatch, if_pos]
  rw [List.any_eq_true]
  refine ⟨[], ?_, rfl⟩
  rw [List.mem_tails]
  exact List.nil_suffix

/-- A wildcard-free pattern followed by `%` matches exactly the strings that
start (case-insensitively) with it. -/
theorem likeMatch_plain (q : List Char) (hq : noWildcard q = true) :
    ∀ s, likeMatch (q ++ ['%']) s = startsWithCI q s := by
  induction q with
  | nil => intro s; rw [List.nil_append, likeMatch_pct]; rfl
  | cons a q' ih =>
    intro s
    have ha : (a == '%') = false ∧ (a == '_') = false := by
      simp only [noWildcard, List.all_cons, Bool.and_eq_true, Bool.not_eq_true'] at hq
      exact ⟨hq.1.1, hq.1.2⟩
    have ha1 : ¬(a = '%') := by simpa using ha.1
    have ha2 : ¬(a = '_') := by simpa using ha.2
    have hq' : noWildcard q' = true := by
      simp only [noWildcard, List.all_cons, Bool.and_eq_true] at hq ⊢
      exact hq.2
    cases s with
    | nil => simp [likeMatch, startsWithCI, ha1]
    | cons c t =>
      simp [List.cons_append, likeMatch, ha1, ha2, startsWithCI, ih hq' t]

/-- On wildcard-free stripped terms, the `%term%` LIKE filter is exactly
case-insensitive substring containment. -/
theorem likeTermMatch_eq_containsCI (term field : String)
    (h : noWildcard (strip term).data = true) :
    likeTermMatch term field = containsCI (strip term).data field.data := by
  unfold likeTermMatch containsCI
  simp only [likeMatch, if_pos]
  exact anyCongr _ _ _ (fun t _ => likeMatch_plain (strip term).data h t)

/-- The empty term is contained in every string. -/
theorem containsCI_nil (s : List Char) : containsCI [] s = true := by
  unfold containsCI
  rw [List.any_eq_true]
  refine ⟨s, ?_, rfl⟩
  rw [List.mem_tails]

/-- C7 counterexample: `search_products` matches against the *stripped* term
(the source builds the pattern `f"%{term.strip()}%"`), so with `term = " a "`
it returns the row with code `"xax"` even though no field contains `" a "`
as a substring — the claim's predicate (`containsCI` on the verbatim term)
selects no row. -/
theorem search_strips_term :
    search_products " a " none false ⟨2, [⟨1, "xax", "y", "", "", 0, 0, ""⟩]⟩ =
      .ok [⟨1, "xax", "y", "", "", 0, 0, ""⟩] ∧
    (⟨2, [⟨1, "xax", "y", "", "", 0, 0, ""⟩]⟩ : DB).rows.filter
      (fun r => containsCI " a ".data r.code.data ||
        containsCI " a ".data r.name.data) = [] ∧
    (Except.ok [(⟨1, "xax", "y", "", "", 0, 0, ""⟩ : Product)] ≠
      (.ok [] : Except StoreError (List Product))) := by
  refine ⟨by rfl, by decide, ?_⟩
  intro h
  injection h with h'
  cases h'

/-- C7 amended: for every term whose stripped form is free of `LIKE`
wildcards, `search` returns exactly the rows whose `code` or `name` contains
the *stripped* term as an ASCII-case-insensitive substring; a term that is
empty (or all whitespace) matches every row. -/
theorem search_matches_substring (term : String) (db : DB)
    (h : noWildcard (strip term).data = true) :
    search_products term none false db =
      .ok (db.rows.filter (fun r =>
        containsCI (strip term).data r.code.data ||
        containsCI (strip term).data r.name.data)) ∧
    (strip term = "" → search_products term none false db = .ok db.rows) := by
  have hmain : search_products term none false db =
      .ok (db.rows.filter (fun r =>
        containsCI (strip term).data r.code.data ||
        containsCI (strip term).data r.name.data)) := by
    unfold search_products build_order_clause
    simp only []
    congr 1
    apply List.filter_congr
    intro r _
    rw [likeTermMatch_eq_containsCI term r.code h,
        likeTermMatch_eq_containsCI term r.name h]
  refine ⟨hmain, ?_⟩
  intro hempty
  rw [hmain]
  have hdata : (strip term).data = [] := by rw [hempty]
  congr 1
  rw [List.filter_eq_self]
  intro r _
  rw [hdata, containsCI_nil, containsCI_nil]
  rfl

/-- C7 amended witness: searching a two-row catalog for `" GaD "` returns
exactly the row whose name contains `"gad"` case-insensitively, and the
all-whitespace (stripped-empty) term `"  "` returns every row. -/
theorem search_matches_substring_witness :
    (search_products " GaD " none false
        ⟨3, [⟨1, "A1", "Widget", "", "", 1, 1, ""⟩,
             ⟨2, "A2", "Gadget", "", "", 1, 1, ""⟩]⟩ =
      .ok ((⟨3, [⟨1, "A1", "Widget", "", "", 1, 1, ""⟩,
             ⟨2, "A2", "Gadget", "", "", 1, 1, ""⟩]⟩ : DB).rows.filter
        (fun r => containsCI (strip " GaD ").data r.code.data ||
          containsCI (strip " GaD ").data r.name.data))) ∧
    (search_products "  " none false
        ⟨3, [⟨1, "A1", "Widget", "", "", 1, 1, ""⟩,
             ⟨2, "A2", "Gadget", "", "", 1, 1, ""⟩]⟩ =
      .ok (⟨3, [⟨1, "A1", "Widget", "", "", 1, 1, ""⟩,
             ⟨2, "A2", "Gadget", "", "", 1, 1, ""⟩]⟩ : DB).rows) :=
  ⟨(search_matches_substring " GaD "
      ⟨3, [⟨1, "A1", "Widget", "", "", 1, 1, ""⟩,
           ⟨2, "A2", "Gadget", "", "", 1, 1, ""⟩]⟩ (by decide)).1,
   (search_matches_substring "  "
      ⟨3, [⟨1, "A1", "Widget", "", "", 1, 1, ""⟩,
           ⟨2, "A2", "Gadget", "", "", 1, 1, ""⟩]⟩ (by decide)).2 (by decide)⟩

/-- Sorting by the `price` column compares prices. -/
theorem colLe_price (a b : Product) :
    colLe "price" a b = decide (a.price ≤ b.price) := by
  rfl

/-- C8 counterexample: with two rows of *equal* price, `ORDER BY price ASC`
and `ORDER BY price DESC` both return the rows in store order (a stable sort
keeps tied rows in table order in either direction), so the id sequences are
`[1, 2]` and `[1, 2]` — not reverses of each other as the claim states for
every catalog. -/
theorem price_sort_tie_not_reversed :
    get_all_products (some "price") false
        ⟨3, [⟨1, "A1", "W", "", "", 1, 5, ""⟩, ⟨2, "A2", "G", "", "", 1, 5, ""⟩]⟩ =
      .ok [⟨1, "A1", "W", "", "", 1, 5, ""⟩, ⟨2, "A2", "G", "", "", 1, 5, ""⟩] ∧
    get_all_products (some "price") true
        ⟨3, [⟨1, "A1", "W", "", "", 1, 5, ""⟩, ⟨2, "A2", "G", "", "", 1, 5, ""⟩]⟩ =
      .ok [⟨1, "A1", "W", "", "", 1, 5, ""⟩, ⟨2, "A2", "G", "", "", 1, 5, ""⟩] ∧
    ([(⟨1, "A1", "W", "", "", 1, 5, ""⟩ : Product),
      ⟨2, "A2", "G", "", "", 1, 5, ""⟩].map Product.id ≠
     ([(⟨1, "A1", "W", "", "", 1, 5, ""⟩ : Product),
       ⟨2, "A2", "G", "", "", 1, 5, ""⟩].map Product.id).reverse) :=
  ⟨rfl, rfl, by decide⟩

/-- C8 amended: whenever the catalog's prices are pairwise distinct, sorting
by `price` ascending and descending yields row sequences that are exact
reverses of each other — in particular the id sequences are reverses. -/
theorem price_sort_reverse (db : DB)
    (hd : db.rows.Pairwise (fun a b => a.price ≠ b.price)) :
    ∃ asc desc,
      get_all_products (some "price") false db = .ok asc ∧
      get_all_products (some "price") true db = .ok desc ∧
      desc = asc.reverse ∧
      desc.map Product.id = (asc.map Product.id).reverse := by
  have hd' : db.rows.Pairwise (fun a b =>
      ¬(colLe "price" a b = true ∧ colLe "price" b a = true)) := by
    refine hd.imp ?_
    intro a b hne hc
    rw [colLe_price, decide_eq_true_eq] at hc
    rcases hc with ⟨h1, h2⟩
    have hPrice := colLe_price b a
    rw [hPrice, decide_eq_true_eq] at h2
    exact hne (le_antisymm h1 h2)
  have htot : ∀ a b : Product,
      colLe "price" a b = true ∨ colLe "price" b a = true := by
    intro a b
    rw [colLe_price, colLe_price, decide_eq_true_eq, decide_eq_true_eq]
    exact le_total a.price b.price
  have htrans : ∀ a b c : Product, colLe "price" a b = true →
      colLe "price" b c = true → colLe "price" a c = true := by
    intro a b c h1 h2
    rw [colLe_price, decide_eq_true_eq] at h1 h2 ⊢
    exact le_trans h1 h2
  have hrev : applySort "price" true db.rows =
      (applySort "price" false db.rows).reverse := by
    show sortBy (fun a b => colLe "price" b a) db.rows =
      (sortBy (fun a b => colLe "price" a b) db.rows).reverse
    exact sortBy_flip_reverse (fun a b => colLe "price" a b) htot htrans db.rows hd'
  refine ⟨applySort "price" false db.rows, applySort "price" true db.rows,
    rfl, rfl, hrev, ?_⟩
  rw [hrev, List.map_reverse]

/-- C8 amended witness: two rows with distinct prices. -/
theorem price_sort_reverse_witness :
    ∃ asc desc,
      get_all_products (some "price") false
          ⟨3, [⟨1, "A1", "W", "", "", 1, 5, ""⟩, ⟨2, "A2", "G", "", "", 1, 3, ""⟩]⟩ =
        .ok asc ∧
      get_all_products (some "price") true
          ⟨3, [⟨1, "A1", "W", "", "", 1, 5, ""⟩, ⟨2, "A2", "G", "", "", 1, 3, ""⟩]⟩ =
        .ok desc ∧
      desc = asc.reverse ∧
      desc.map Product.id = (asc.map Product.id).reverse :=
  price_sort_reverse
    ⟨3, [⟨1, "A1", "W", "", "", 1, 5, ""⟩, ⟨2, "A2", "G", "", "", 1, 3, ""⟩]⟩
    (by decide)

/-- C9 counterexample: with the `LowStock` filter active, the TUI's data
loader calls `get_low_stock_items(threshold)` and never applies the active
sort pair: on a catalog whose low-stock rows have prices `5, 3` (ids `1, 2`)
the evaluation with sort field `price` ascending returns store order
`[id 1, id 2]`, while applying the sort afterward — what the claim states —
would give `[id 2, id 1]`. -/
theorem lowstock_ignores_sort :
    evaluate (.lowStock 10) (some "price") false
        ⟨3, [⟨1, "A1", "W", "", "", 1, 5, ""⟩, ⟨2, "A2", "G", "", "", 1, 3, ""⟩]⟩ =
      .ok [⟨1, "A1", "W", "", "", 1, 5, ""⟩, ⟨2, "A2", "G", "", "", 1, 3, ""⟩] ∧
    applySort "price" false
        [⟨1, "A1", "W", "", "", 1, 5, ""⟩, ⟨2, "A2", "G", "", "", 1, 3, ""⟩] =
      [⟨2, "A2", "G", "", "", 1, 3, ""⟩, ⟨1, "A1", "W", "", "", 1, 5, ""⟩] ∧
    ([(⟨1, "A1", "W", "", "", 1, 5, ""⟩ : Product), ⟨2, "A2", "G", "", "", 1, 3, ""⟩] ≠
     [(⟨2, "A2", "G", "", "", 1, 3, ""⟩ : Product), ⟨1, "A1", "W", "", "", 1, 5, ""⟩]) :=
  ⟨rfl, rfl, by decide⟩

/-- C9 amended: for a valid sort column, evaluating `All`, `Search`,
`ByCategory` and `ByLocation` dispatches to the corresponding store read
with the active sort pair applied to the returned sequence; evaluating
`LowStock(t)` dispatches to the sortless low-stock read and the active sort
pair is *ignored* (the result is independent of it and stays in store
order). -/
theorem evaluate_dispatch (c : String) (d : Bool) (db : DB)
    (hc : ORDERABLE_COLUMNS.contains (lowerString c) = true) :
    (evaluate .all (some c) d db = .ok (applySort (lowerString c) d db.rows)) ∧
    (∀ term, evaluate (.search term) (some c) d db =
      .ok (applySort (lowerString c) d (db.rows.filter (fun r =>
        likeTermMatch term r.code || likeTermMatch term r.name)))) ∧
    (∀ v, evaluate (.byCategory v) (some c) d db =
      .ok (applySort (lowerString c) d
        (db.rows.filter (fun r => r.category == strip v)))) ∧
    (∀ v, evaluate (.byLocation v) (some c) d db =
      .ok (applySort (lowerString c) d
        (db.rows.filter (fun r => r.location == strip v)))) ∧
    (∀ (t : Int) (ob' : Option String) (d' : Bool),
      evaluate (.lowStock t) (some c) d db = evaluate (.lowStock t) ob' d' db) ∧
    (∀ t : Int, 0 ≤ t → evaluate (.lowStock t) (some c) d db =
      .ok (db.rows.filter (fun r => r.quantity ≤ t))) := by
  have hsorter : build_order_clause (some c) d = .ok (applySort (lowerString c) d) := by
    unfold build_order_clause
    dsimp only
    rw [if_pos hc]
  refine ⟨?_, ?_, ?_, ?_, ?_, ?_⟩
  · show get_all_products (some c) d db = _
    unfold get_all_products
    rw [hsorter]
  · intro term
    show search_products term (some c) d db = _
    unfold search_products
    rw [hsorter]
  · intro v
    show filter_by_category v (some c) d db = _
    unfold filter_by_category
    rw [hsorter]
  · intro v
    show filter_by_location v (some c) d db = _
    unfold filter_by_location
    rw [hsorter]
  · intro t ob' d'
    rfl
  · intro t ht
    show get_low_stock_items t db = _
    unfold get_low_stock_items
    rw [if_neg (by omega)]

/-- C9 amended witness: concrete dispatches on a one-row catalog with the
`price` sort active. -/
theorem evaluate_dispatch_witness :
    (evaluate .all (some "price") false ⟨2, [⟨1, "A1", "W", "", "", 1, 5, ""⟩]⟩ =
      .ok (applySort (lowerString "price") false
        [⟨1, "A1", "W", "", "", 1, 5, ""⟩])) ∧
    (∀ (t : Int) (ob' : Option String) (d' : Bool),
      evaluate (.lowStock t) (some "price") false
          ⟨2, [⟨1, "A1", "W", "", "", 1, 5, ""⟩]⟩ =
        evaluate (.lowStock t) ob' d'
          ⟨2, [⟨1, "A1", "W", "", "", 1, 5, ""⟩]⟩) ∧
    (evaluate (.lowStock 10) (some "price") false
        ⟨2, [⟨1, "A1", "W", "", "", 1, 5, ""⟩]⟩ =
      .ok ((⟨2, [⟨1, "A1", "W", "", "", 1, 5, ""⟩]⟩ : DB).rows.filter
        (fun r => r.quantity ≤ 10))) :=
  ⟨(evaluate_dispatch "price" false ⟨2, [⟨1, "A1", "W", "", "", 1, 5, ""⟩]⟩
      (by decide)).1,
   (evaluate_dispatch "price" false ⟨2, [⟨1, "A1", "W", "", "", 1, 5, ""⟩]⟩
      (by decide)).2.2.2.2.1,
   (evaluate_dispatch "price" false ⟨2, [⟨1, "A1", "W", "", "", 1, 5, ""⟩]⟩
      (by decide)).2.2.2.2.2 10 (by decide)⟩

/-- The two-step `top_row` adjustment, applied to a non-negative clamped
selection with a viewport of at least one row, yields a viewport containing
the selection. -/
theorem reclampTop_spec (sel top h : Int) (hh : 1 ≤ h) (htop : 0 ≤ top)
    (hsel : 0 ≤ sel) :
    0 ≤ reclampTop sel top h ∧ reclampTop sel top h ≤ sel ∧
      sel < reclampTop sel top h + h := by
  unfold reclampTop
  dsimp only
  split_ifs <;> omega

/-- Both invariant-relevant indices are non-negative in any invariant
state. -/
theorem tuiInv_nonneg (s : TuiState) (hs : tuiInv s) :
    0 ≤ s.selectedIndex ∧ 0 ≤ s.topRow := by
  rcases hs with ⟨_, h⟩
  by_cases hr : s.rows.isEmpty
  · rw [if_pos hr] at h
    omega
  · rw [if_neg hr] at h
    exact ⟨h.1, h.2.2.1⟩

/-- Clamping a non-empty table with non-negative `top_row` establishes the
invariant, whatever the incoming selection was. -/
theorem inv_of_reclamp (rows : List Product) (sel top hgt : Int)
    (hh : 5 ≤ hgt) (hne : ¬(rows.isEmpty = true)) (htop : 0 ≤ top) :
    tuiInv ⟨rows, max 0 (min sel ((rows.length : Int) - 1)),
      reclampTop (max 0 (min sel ((rows.length : Int) - 1))) top (max 0 (hgt - 4)),
      hgt⟩ := by
  have hrne : rows ≠ [] := by
    intro h
    rw [h] at hne
    exact hne rfl
  have hlen : 1 ≤ (rows.length : Int) := by
    have := List.length_pos.2 hrne
    omega
  have h41 : 1 ≤ max 0 (hgt - 4) := by omega
  have hsel : 0 ≤ max 0 (min sel ((rows.length : Int) - 1)) := by omega
  have hspec := reclampTop_spec (max 0 (min sel ((rows.length : Int) - 1)))
    top (max 0 (hgt - 4)) h41 htop hsel
  unfold tuiInv tableHeight
  dsimp only
  refine ⟨hh, ?_⟩
  rw [if_neg hne]
  refine ⟨hsel, by omega, hspec.1, hspec.2.1, hspec.2.2⟩

/-- `_clamp_selection` establishes the invariant from any state whose
`top_row` and `selected_index` are non-negative, under a viewport of at
least one row. -/
theorem clampSelection_inv (s : TuiState) (hh : 5 ≤ s.height)
    ( _hsel : 0 ≤ s.selectedIndex) (htop : 0 ≤ s.topRow) :
    tuiInv (clampSelection s) := by
  unfold clampSelection
  by_cases hr : s.rows.isEmpty
  · rw [if_pos hr]
    unfold tuiInv
    refine ⟨hh, ?_⟩
    rw [if_pos hr]
    exact ⟨rfl, rfl⟩
  · rw [if_neg hr]
    exact inv_of_reclamp s.rows s.selectedIndex s.topRow s.height hh hr htop

/-- `_move_selection` preserves the invariant. -/
theorem moveSelection_inv (s : TuiState) (delta : Int) (hs : tuiInv s) :
    tuiInv (moveSelection s delta) := by
  unfold moveSelection
  by_cases hr : s.rows.isEmpty
  · rw [if_pos hr]
    exact hs
  · rw [if_neg hr]
    exact inv_of_reclamp s.rows (s.selectedIndex + delta) s.topRow s.height
      hs.1 hr (tuiInv_nonneg s hs).2

/-- Every good event (successful reloads, resizes keeping at least five
terminal rows, all navigation and clicks) preserves the invariant. -/
theorem step_inv (s : TuiState) (e : TuiEvent) (hs : tuiInv s)
    (hg : goodEvent e) : tuiInv (step s e) := by
  obtain ⟨hsel, htop⟩ := tuiInv_nonneg s hs
  cases e with
  | keyDown => exact moveSelection_inv s 1 hs
  | keyUp => exact moveSelection_inv s (-1) hs
  | pageDown => exact moveSelection_inv s (tableHeight s) hs
  | pageUp => exact moveSelection_inv s (-(tableHeight s)) hs
  | keyHome =>
    unfold step tuiInv tableHeight
    dsimp only
    refine ⟨hs.1, ?_⟩
    by_cases hr : s.rows.isEmpty
    · rw [if_pos hr]
      exact ⟨rfl, rfl⟩
    · rw [if_neg hr]
      have hrne : s.rows ≠ [] := by
        intro h
        rw [h] at hr
        exact hr rfl
      have hlen : 1 ≤ (s.rows.length : Int) := by
        have := List.length_pos.2 hrne
        omega
      have h5 := hs.1
      refine ⟨by omega, by omega, by omega, by omega, by omega⟩
  | keyEnd =>
    exact clampSelection_inv ⟨s.rows, max 0 ((s.rows.length : Int) - 1),
      s.topRow, s.height⟩ hs.1
      (by show (0 : Int) ≤ max 0 ((s.rows.length : Int) - 1); omega) htop
  | resize h =>
    exact clampSelection_inv ⟨s.rows, s.selectedIndex, s.topRow, h⟩ hg hsel htop
  | reloadOk newRows =>
    exact clampSelection_inv ⟨newRows, s.selectedIndex, s.topRow, s.height⟩
      hs.1 hsel htop
  | reloadFail => exact absurd hg (by exact fun h => h)
  | click y =>
    unfold step
    dsimp only
    split_ifs with h1 h2 h3
    · exact hs
    · exact hs
    · exact hs
    · exact clampSelection_inv ⟨s.rows, s.topRow + (y - 3), s.topRow, s.height⟩
        hs.1 (by show (0 : Int) ≤ s.topRow + (y - 3); omega) htop

/-- A placeholder row for driving the controller model. -/
def sampleRow (i : Int) : Product :=
  ⟨i, "c", "n", "", "", 0, 0, ""⟩

/-- C1 counterexample, refuting the claim on two event sequences from the
initial controller state (empty rows, both indices `0`, a 24-row terminal).
First, `refresh_data`'s failure branch clears `rows` *without* re-clamping:
after loading four rows, jumping to the end (selection `3`) and then a
failing reload, `rows` is empty but `selectedIndex` is still `3`, not `0`.
Second, after resizing to a 3-row terminal (viewport height `0`),
`_clamp_selection` pushes `top_row` to `1` above `selectedIndex = 0` on a
one-row table, so `topRow ≤ selectedIndex` fails (the claimed inequality
`topRow ≤ selectedIndex < topRow + viewportHeight` is unsatisfiable at
height `0`).  No crash occurs in either trace: `step` is total. -/
theorem clamp_invariant_violations :
    ((runEvents ⟨[], 0, 0, 24⟩
        [.reloadOk [sampleRow 1, sampleRow 2, sampleRow 3, sampleRow 4],
         .keyEnd, .reloadFail]).rows = [] ∧
     (runEvents ⟨[], 0, 0, 24⟩
        [.reloadOk [sampleRow 1, sampleRow 2, sampleRow 3, sampleRow 4],
         .keyEnd, .reloadFail]).selectedIndex = 3) ∧
    ((runEvents ⟨[], 0, 0, 24⟩ [.reloadOk [sampleRow 1], .resize 3]).rows ≠ [] ∧
     (runEvents ⟨[], 0, 0, 24⟩ [.reloadOk [sampleRow 1], .resize 3]).selectedIndex = 0 ∧
     (runEvents ⟨[], 0, 0, 24⟩ [.reloadOk [sampleRow 1], .resize 3]).topRow = 1) := by
  refine ⟨⟨by rfl, by rfl⟩, ?_, by rfl, by rfl⟩
  intro h
  cases h

/-- C1 amended: for every sequence of navigation, resize and reload events
in which each reload succeeds and each resize keeps at least 5 terminal rows
(a viewport of at least one row), every state reached from an invariant
state — in particular from the initial controller state — satisfies the
clamping invariant: `topRow ≤ selectedIndex < topRow + viewportHeight` and
`0 ≤ selectedIndex < len(rows)` on a non-empty table, and
`selectedIndex = topRow = 0` on an empty one; all transition functions are
total, so no crash.  (A *failing* reload clears `rows` without re-clamping,
and a viewport of height `0` makes the claimed inequalities unsatisfiable —
the two restrictions forced by the counterexample.) -/
theorem clamp_invariant_preserved (s : TuiState) (evts : List TuiEvent)
    (hs : tuiInv s) (hg : ∀ e ∈ evts, goodEvent e) :
    tuiInv (runEvents s evts) := by
  induction evts generalizing s with
  | nil => exact hs
  | cons e rest ih =>
    exact ih (step s e) (step_inv s e hs (hg e (by simp)))
      (fun e' h => hg e' (by simp [h]))

/-- C1 amended witness: from the initial controller state, a load of three
rows, end-jump, page-up, a resize to 7 rows and a reload of two rows keep
the invariant. -/
theorem clamp_invariant_preserved_witness :
    tuiInv (runEvents ⟨[], 0, 0, 24⟩
      [.reloadOk [sampleRow 1, sampleRow 2, sampleRow 3], .keyEnd, .pageUp,
       .resize 7, .reloadOk [sampleRow 1, sampleRow 2], .keyDown]) :=
  clamp_invariant_preserved ⟨[], 0, 0, 24⟩
    [.reloadOk [sampleRow 1, sampleRow 2, sampleRow 3], .keyEnd, .pageUp,
     .resize 7, .reloadOk [sampleRow 1, sampleRow 2], .keyDown]
    (by unfold tuiInv
        dsimp only
        exact ⟨by omega, by simp⟩)
    (by intro e he
        rcases List.mem_cons.1 he with heq | he
        · rw [heq]; trivial
        · rcases List.mem_cons.1 he with heq | he
          · rw [heq]; trivial
          · rcases List.mem_cons.1 he with heq | he
            · rw [heq]; trivial
            · rcases List.mem_cons.1 he with heq | he
              · rw [heq]; show (5 : Int) ≤ 7; omega
              · rcases List.mem_cons.1 he with heq | he
                · rw [heq]; trivial
                · rcases List.mem_cons.1 he with heq | he
                  · rw [heq]; trivial
                  · cases he)
